import Mathlib

/-!
Shallow embedding of the AIND-Planning air-cargo problem formulation layer
(`my_air_cargo_problems.py`): fluents, the state codec, the action grounder,
the transition engine (applicability, successor, goal test), the
ignore-preconditions heuristic, and a model of the bounded memoization cache
used by the level-sum heuristic.
-/

namespace AirCargo

/-- Ground atomic fluents of the air-cargo domain, mirroring the `expr` atoms
built in the source: `At(x, a)` ("object x is at airport a") and `In(c, p)`
("cargo c is inside plane p").  Identity is structural, as for `expr`. -/
inductive Fluent where
  | At : String → String → Fluent
  | In : String → String → Fluent
deriving DecidableEq

/-- Mirror of `lp_utils.FluentState`: a pair of fluent lists, `pos` asserted
true and `neg` asserted false. -/
structure FluentState where
  pos : List Fluent
  neg : List Fluent
deriving DecidableEq

/-- Modelled from the spec: `lp_utils.encode_state` is not under `src/`; the
encoding rule of the spec is "slot i is true iff FluentOrder[i] is a member of the
positive set of the WorldState; otherwise false". -/
def encode_state (fs : FluentState) (state_map : List Fluent) : List Bool :=
  state_map.map (fun f => decide (f ∈ fs.pos))

/-- Modelled from the spec: `lp_utils.decode_state` is not under `src/`; the
decoding rule of the spec reconstructs "positive as the fluents at true slots and
negative as the fluents at false slots" of the FluentOrder. -/
def decode_state (state : List Bool) (state_map : List Fluent) : FluentState :=
  { pos := ((state_map.zip state).filter (fun e => e.2 = true)).map Prod.fst
  , neg := ((state_map.zip state).filter (fun e => e.2 = false)).map Prod.fst }

/-- Mirror of `aimacode.planning.Action` as instantiated by the grounder: a
schema name, the ordered argument tuple, positive/negative precondition lists
and add/delete effect lists. -/
structure Action where
  name : String
  args : List String
  precond_pos : List Fluent
  precond_neg : List Fluent
  effect_add : List Fluent
  effect_rem : List Fluent
deriving DecidableEq

/-- `load_actions` of `AirCargoProblem.get_actions`: one Load action per
(cargo, plane, airport) triple, iterated cargo-outermost as in the source. -/
def load_actions (cargos planes airports : List String) : List Action :=
  cargos.flatMap fun c => planes.flatMap fun p => airports.map fun a =>
    { name := "Load", args := [c, p, a]
    , precond_pos := [.At c a, .At p a]
    , precond_neg := []
    , effect_add := [.In c p]
    , effect_rem := [.At c a] }

/-- `unload_actions` of `AirCargoProblem.get_actions`: one Unload action per
(cargo, plane, airport) triple, iterated cargo-outermost as in the source. -/
def unload_actions (cargos planes airports : List String) : List Action :=
  cargos.flatMap fun c => planes.flatMap fun p => airports.map fun a =>
    { name := "Unload", args := [c, p, a]
    , precond_pos := [.In c p, .At p a]
    , precond_neg := []
    , effect_add := [.At c a]
    , effect_rem := [.In c p] }

/-- `fly_actions` of `AirCargoProblem.get_actions`: one Fly action per
(from, to, plane) triple with from ≠ to, iterated from/to/plane as in the
source. -/
def fly_actions (planes airports : List String) : List Action :=
  airports.flatMap fun fr =>
    (airports.filter (fun t => decide (fr ≠ t))).flatMap fun t =>
      planes.map fun p =>
        { name := "Fly", args := [p, fr, t]
        , precond_pos := [.At p fr]
        , precond_neg := []
        , effect_add := [.At p t]
        , effect_rem := [.At p fr] }

/-- Mirror of the data stored by `AirCargoProblem.__init__`: the domain identifier
lists, the initial `FluentState` and the goal fluent list.  The constructor
performs no validation of the inputs. -/
structure AirCargoProblem where
  cargos : List String
  planes : List String
  airports : List String
  initial : FluentState
  goal : List Fluent
deriving DecidableEq

/-- `self.state_map = initial.pos + initial.neg` from `__init__`. -/
def AirCargoProblem.state_map (p : AirCargoProblem) : List Fluent :=
  p.initial.pos ++ p.initial.neg

/-- `self.initial_state_TF = encode_state(initial, self.state_map)`. -/
def AirCargoProblem.initial_state_TF (p : AirCargoProblem) : List Bool :=
  encode_state p.initial p.state_map

/-- `AirCargoProblem.get_actions`: concatenation of the Load, Unload and Fly
ground actions, in that order. -/
def AirCargoProblem.get_actions (p : AirCargoProblem) : List Action :=
  load_actions p.cargos p.planes p.airports ++
    unload_actions p.cargos p.planes p.airports ++
    fly_actions p.planes p.airports

/-- `self.actions_list = self.get_actions()` from `__init__`. -/
def AirCargoProblem.actions_list (p : AirCargoProblem) : List Action :=
  p.get_actions

/-- `AirCargoProblem.actions`: the KB holds the positive sentence of the decoded
state, so `clause in kb.clauses` is membership in the decoded positive
list; an action is kept when none of its negative preconditions and all of
its positive preconditions are in the KB, scanning in source order. -/
def AirCargoProblem.actions (p : AirCargoProblem) (state : List Bool) :
    List Action :=
  let kb := (decode_state state p.state_map).pos
  p.actions_list.filter (fun a =>
    a.precond_neg.all (fun c => decide (c ∉ kb)) &&
    a.precond_pos.all (fun c => decide (c ∈ kb)))

/-- Loop "for fluent in xs: if fluent not in acc: acc.append(fluent)" used by
`AirCargoProblem.result` when folding effect lists into the new state. -/
def appendFresh (acc : List Fluent) (xs : List Fluent) : List Fluent :=
  xs.foldl (fun ys f => if f ∈ ys then ys else ys ++ [f]) acc

/-- Decoded new state built inside `AirCargoProblem.result`: positives are
the old positives not deleted, then the add effects (deduplicated); negatives
are the old negatives not added, then the delete effects (deduplicated). -/
def result_fs (old : FluentState) (a : Action) : FluentState :=
  { pos := appendFresh (old.pos.filter (fun f => decide (f ∉ a.effect_rem)))
      a.effect_add
  , neg := appendFresh (old.neg.filter (fun f => decide (f ∉ a.effect_add)))
      a.effect_rem }

/-- `AirCargoProblem.result`: decode, apply the add/delete update rule, and
re-encode against the state map of the problem.  No applicability check is made
and no error path exists. -/
def AirCargoProblem.result (p : AirCargoProblem) (state : List Bool)
    (a : Action) : List Bool :=
  encode_state (result_fs (decode_state state p.state_map) a) p.state_map

/-- `AirCargoProblem.goal_test`: true iff every goal clause is among the
positive fluents of the decoded state (the KB clauses). -/
def AirCargoProblem.goal_test (p : AirCargoProblem) (state : List Bool) :
    Bool :=
  let kb := (decode_state state p.state_map).pos
  p.goal.all (fun c => decide (c ∈ kb))

/-- `AirCargoProblem.h_ignore_preconditions`: counts, with an explicit
accumulator as in the source loop, the goal clauses missing from the decoded
positive fluents of the decoded state. -/
def AirCargoProblem.h_ignore_preconditions (p : AirCargoProblem)
    (state : List Bool) : Nat :=
  let kb := (decode_state state p.state_map).pos
  p.goal.foldl (fun cnt c => if c ∈ kb then cnt else cnt + 1) 0

/-- Applying a list of actions in sequence through `result`, as the scenario
test of the spec does. -/
def AirCargoProblem.run (p : AirCargoProblem) (state : List Bool)
    (plan : List Action) : List Bool :=
  plan.foldl p.result state

/-- `air_cargo_p1`: the 2-cargo/2-plane/2-airport problem instance, with the
exact fluent lists and ordering of the source. -/
def air_cargo_p1 : AirCargoProblem :=
  { cargos := ["C1", "C2"]
  , planes := ["P1", "P2"]
  , airports := ["JFK", "SFO"]
  , initial :=
    { pos := [.At "C1" "SFO", .At "C2" "JFK", .At "P1" "SFO", .At "P2" "JFK"]
    , neg := [.At "C2" "SFO", .In "C2" "P1", .In "C2" "P2", .At "C1" "JFK",
              .In "C1" "P1", .In "C1" "P2", .At "P1" "JFK", .At "P2" "SFO"] }
  , goal := [.At "C1" "JFK", .At "C2" "SFO"] }

/-- Ground action Load(C1, P1, SFO) as produced by the grounder. -/
def p1_load_C1 : Action :=
  { name := "Load", args := ["C1", "P1", "SFO"]
  , precond_pos := [.At "C1" "SFO", .At "P1" "SFO"], precond_neg := []
  , effect_add := [.In "C1" "P1"], effect_rem := [.At "C1" "SFO"] }

/-- Ground action Fly(P1, SFO, JFK) as produced by the grounder. -/
def p1_fly_P1 : Action :=
  { name := "Fly", args := ["P1", "SFO", "JFK"]
  , precond_pos := [.At "P1" "SFO"], precond_neg := []
  , effect_add := [.At "P1" "JFK"], effect_rem := [.At "P1" "SFO"] }

/-- Ground action Unload(C1, P1, JFK) as produced by the grounder. -/
def p1_unload_C1 : Action :=
  { name := "Unload", args := ["C1", "P1", "JFK"]
  , precond_pos := [.In "C1" "P1", .At "P1" "JFK"], precond_neg := []
  , effect_add := [.At "C1" "JFK"], effect_rem := [.In "C1" "P1"] }

/-- Ground action Load(C2, P2, JFK) as produced by the grounder. -/
def p1_load_C2 : Action :=
  { name := "Load", args := ["C2", "P2", "JFK"]
  , precond_pos := [.At "C2" "JFK", .At "P2" "JFK"], precond_neg := []
  , effect_add := [.In "C2" "P2"], effect_rem := [.At "C2" "JFK"] }

/-- Ground action Fly(P2, JFK, SFO) as produced by the grounder. -/
def p1_fly_P2 : Action :=
  { name := "Fly", args := ["P2", "JFK", "SFO"]
  , precond_pos := [.At "P2" "JFK"], precond_neg := []
  , effect_add := [.At "P2" "SFO"], effect_rem := [.At "P2" "JFK"] }

/-- Ground action Unload(C2, P2, SFO) as produced by the grounder. -/
def p1_unload_C2 : Action :=
  { name := "Unload", args := ["C2", "P2", "SFO"]
  , precond_pos := [.In "C2" "P2", .At "P2" "SFO"], precond_neg := []
  , effect_add := [.At "C2" "SFO"], effect_rem := [.In "C2" "P2"] }

/-- Ground action Fly(P1, JFK, SFO), inapplicable in the initial state of
`air_cargo_p1` because P1 starts at SFO. -/
def p1_fly_P1_back : Action :=
  { name := "Fly", args := ["P1", "JFK", "SFO"]
  , precond_pos := [.At "P1" "JFK"], precond_neg := []
  , effect_add := [.At "P1" "SFO"], effect_rem := [.At "P1" "JFK"] }

/-- The six-action plan of the scenario test of the spec, as ground actions
of the grounder. -/
def p1_plan : List Action :=
  [p1_load_C1, p1_fly_P1, p1_unload_C1, p1_load_C2, p1_fly_P2, p1_unload_C2]

/-- The problem `air_cargo_p1` with the goal list emptied. -/
def p1_empty_goal : AirCargoProblem :=
  { air_cargo_p1 with goal := [] }

/-- Model of `functools.lru_cache(maxsize)` as used on `h_pg_levelsum`: the
cache is a key/value list kept in most-recently-used-first order.  A hit
moves the entry to the front; a miss computes, inserts at the front and
truncates to `maxsize`, evicting the least-recently-used entry. -/
def lruStep (maxsize : Nat) (f : Nat → Nat) (cache : List (Nat × Nat))
    (k : Nat) : List (Nat × Nat) :=
  match cache.find? (fun e => e.1 == k) with
  | some e => (k, e.2) :: cache.filter (fun e => e.1 != k)
  | none => ((k, f k) :: cache).take maxsize

/-- Running the memoized heuristic on a sequence of keys, starting from the
empty cache, and returning the final cache contents. -/
def lruRun (maxsize : Nat) (f : Nat → Nat) (ks : List Nat) :
    List (Nat × Nat) :=
  ks.foldl (lruStep maxsize f) []

/-- A malformed problem instance: the goal fluent `At(C1, LAX)` references
airport LAX, absent from the domain and from the initial fluents, hence from
the state map. -/
def badProblem : AirCargoProblem :=
  { cargos := ["C1"]
  , planes := ["P1"]
  , airports := ["SFO"]
  , initial :=
    { pos := [.At "C1" "SFO", .At "P1" "SFO"]
    , neg := [.In "C1" "P1"] }
  , goal := [.At "C1" "LAX"] }

/-- The goal test rejects every encoded state. -/
def goalTestAlwaysFalse (p : AirCargoProblem) : Prop :=
  ∀ state : List Bool, p.goal_test state = false

/-! ## Helper lemmas -/

theorem mem_appendFresh (f : Fluent) (acc xs : List Fluent) :
    f ∈ appendFresh acc xs ↔ f ∈ acc ∨ f ∈ xs := by
  induction xs generalizing acc with
  | nil => simp [appendFresh]
  | cons x xs ih =>
    have hstep : appendFresh acc (x :: xs) =
        appendFresh (if x ∈ acc then acc else acc ++ [x]) xs := rfl
    rw [hstep, ih]
    by_cases hx : x ∈ acc
    · simp only [if_pos hx, List.mem_cons]
      constructor
      · rintro (h | h)
        · exact Or.inl h
        · exact Or.inr (Or.inr h)
      · rintro (h | rfl | h)
        · exact Or.inl h
        · exact Or.inl hx
        · exact Or.inr h
    · simp only [if_neg hx, List.mem_append, List.mem_cons,
        List.mem_singleton]
      tauto

theorem mem_result_fs_pos (old : FluentState) (a : Action) (f : Fluent) :
    f ∈ (result_fs old a).pos ↔
      (f ∈ old.pos ∧ f ∉ a.effect_rem) ∨ f ∈ a.effect_add := by
  simp [result_fs, mem_appendFresh, List.mem_filter]

theorem mem_result_fs_neg (old : FluentState) (a : Action) (f : Fluent) :
    f ∈ (result_fs old a).neg ↔
      (f ∈ old.neg ∧ f ∉ a.effect_add) ∨ f ∈ a.effect_rem := by
  simp [result_fs, mem_appendFresh, List.mem_filter]

theorem decode_pos_subset_state_map (s : List Bool) (m : List Fluent)
    (f : Fluent) (h : f ∈ (decode_state s m).pos) : f ∈ m := by
  simp only [decode_state, List.mem_map, List.mem_filter] at h
  obtain ⟨e, ⟨hz, _⟩, rfl⟩ := h
  exact (List.of_mem_zip hz).1

theorem foldl_count_missing (kb : List Fluent) (l : List Fluent) (n : Nat) :
    l.foldl (fun cnt c => if c ∈ kb then cnt else cnt + 1) n =
      n + l.countP (fun c => decide (c ∉ kb)) := by
  induction l generalizing n with
  | nil => simp
  | cons x xs ih =>
    by_cases hx : x ∈ kb
    · simp [List.foldl_cons, ih, List.countP_cons, hx]
    · simp [List.foldl_cons, ih, List.countP_cons, hx]
      omega

/-! ## Claims -/

/-- Claim C1: for every encoded state s and ground action a, `result`
returns the encoding of the world state whose positive set is (old positive
set minus the delete effects) union the add effects, and whose negative set
is (old negative set minus the add effects) union the delete effects, where
old is the decoding of s. -/
theorem result_update_rule (p : AirCargoProblem) (s : List Bool)
    (a : Action) :
    (∀ f : Fluent,
      f ∈ (result_fs (decode_state s p.state_map) a).pos ↔
        ((f ∈ (decode_state s p.state_map).pos ∧ f ∉ a.effect_rem) ∨
          f ∈ a.effect_add)) ∧
    (∀ f : Fluent,
      f ∈ (result_fs (decode_state s p.state_map) a).neg ↔
        ((f ∈ (decode_state s p.state_map).neg ∧ f ∉ a.effect_add) ∨
          f ∈ a.effect_rem)) ∧
    p.result s a =
      encode_state (result_fs (decode_state s p.state_map) a) p.state_map :=
  ⟨fun f => mem_result_fs_pos _ a f, fun f => mem_result_fs_neg _ a f, rfl⟩

/-- Instance of claim C1 at the initial state of `air_cargo_p1` and the
action Load(C1, P1, SFO), checked on the fluent In(C1, P1). -/
theorem result_update_rule_witness :
    Fluent.In "C1" "P1" ∈
        (result_fs
          (decode_state air_cargo_p1.initial_state_TF air_cargo_p1.state_map)
          p1_load_C1).pos ↔
      ((Fluent.In "C1" "P1" ∈
          (decode_state air_cargo_p1.initial_state_TF
            air_cargo_p1.state_map).pos ∧
        Fluent.In "C1" "P1" ∉ p1_load_C1.effect_rem) ∨
        Fluent.In "C1" "P1" ∈ p1_load_C1.effect_add) :=
  (result_update_rule air_cargo_p1 air_cargo_p1.initial_state_TF
    p1_load_C1).1 (Fluent.In "C1" "P1")

/-- Claim C2: `actions` returns exactly those grounded actions whose
negative preconditions are all absent from, and whose positive
preconditions are all present in, the positive-literal set of the decoded
state. -/
theorem actions_mem_iff (p : AirCargoProblem) (s : List Bool) (a : Action) :
    a ∈ p.actions s ↔
      a ∈ p.actions_list ∧
      (∀ c ∈ a.precond_neg, c ∉ (decode_state s p.state_map).pos) ∧
      (∀ c ∈ a.precond_pos, c ∈ (decode_state s p.state_map).pos) := by
  simp [AirCargoProblem.actions, List.mem_filter, and_assoc]

/-- Instance of claim C2: Load(C1, P1, SFO) is applicable in the initial
state of `air_cargo_p1`, via the membership characterization. -/
theorem actions_mem_iff_witness :
    p1_load_C1 ∈ air_cargo_p1.actions air_cargo_p1.initial_state_TF :=
  (actions_mem_iff air_cargo_p1 air_cargo_p1.initial_state_TF
    p1_load_C1).mpr ⟨by decide, by decide, by decide⟩

/-- Claim C5: `goal_test` returns true iff every fluent of the goal list is
among the positive fluents of the decoded state; with an empty goal list it
returns true on every state. -/
theorem goal_test_iff (p : AirCargoProblem) (s : List Bool) :
    (p.goal_test s = true ↔
      ∀ g ∈ p.goal, g ∈ (decode_state s p.state_map).pos) ∧
    (p.goal = [] → p.goal_test s = true) := by
  constructor
  · simp [AirCargoProblem.goal_test]
  · intro h
    simp [AirCargoProblem.goal_test, h]

/-- Instance of claim C5: the empty-goal variant of `air_cargo_p1` accepts
an arbitrary state. -/
theorem goal_test_iff_witness : p1_empty_goal.goal_test [false] = true :=
  (goal_test_iff p1_empty_goal [false]).2 rfl

/-- Claim C6: `h_ignore_preconditions` returns the number of goal entries
missing from the positive fluents of the decoded state, and returns 0 on
every state satisfying the goal test. -/
theorem h_ignore_preconditions_count (p : AirCargoProblem) (s : List Bool) :
    p.h_ignore_preconditions s =
      p.goal.countP
        (fun g => decide (g ∉ (decode_state s p.state_map).pos)) ∧
    (p.goal_test s = true → p.h_ignore_preconditions s = 0) := by
  have hc : p.h_ignore_preconditions s =
      p.goal.countP
        (fun g => decide (g ∉ (decode_state s p.state_map).pos)) := by
    simpa using foldl_count_missing (decode_state s p.state_map).pos p.goal 0
  refine ⟨hc, fun hg => ?_⟩
  rw [hc, List.countP_eq_zero]
  simp only [AirCargoProblem.goal_test, List.all_eq_true,
    decide_eq_true_eq] at hg
  intro g hgoal
  simpa using hg g hgoal

/-- Instance of claim C6: the heuristic evaluates to 0 on the goal state
reached by the scenario plan of `air_cargo_p1`. -/
theorem h_ignore_preconditions_count_witness :
    air_cargo_p1.h_ignore_preconditions
      (air_cargo_p1.run air_cargo_p1.initial_state_TF p1_plan) = 0 :=
  (h_ignore_preconditions_count air_cargo_p1
    (air_cargo_p1.run air_cargo_p1.initial_state_TF p1_plan)).2 (by decide)

/-- Claim C3: in `air_cargo_p1`, the six grounded actions Load(C1,P1,SFO),
Fly(P1,SFO,JFK), Unload(C1,P1,JFK), Load(C2,P2,JFK), Fly(P2,JFK,SFO),
Unload(C2,P2,SFO) applied in sequence through `result` from the initial
state reach a state accepted by `goal_test`, and every proper prefix of the
sequence leaves `goal_test` false. -/
theorem p1_scenario :
    (∀ a ∈ p1_plan, a ∈ air_cargo_p1.actions_list) ∧
    air_cargo_p1.goal_test
      (air_cargo_p1.run air_cargo_p1.initial_state_TF p1_plan) = true ∧
    (∀ k < 6, air_cargo_p1.goal_test
      (air_cargo_p1.run air_cargo_p1.initial_state_TF (p1_plan.take k)) =
        false) := by
  decide

/-- Instance of claim C3: the first plan action is a grounded action of
`air_cargo_p1`, and the three-action prefix does not reach the goal. -/
theorem p1_scenario_witness :
    p1_load_C1 ∈ air_cargo_p1.actions_list ∧
    air_cargo_p1.goal_test
      (air_cargo_p1.run air_cargo_p1.initial_state_TF (p1_plan.take 3)) =
        false :=
  ⟨p1_scenario.1 p1_load_C1 (by decide), p1_scenario.2.2 3 (by decide)⟩

theorem length_flatMap_eq_mul {α β : Type} (l : List α) (f : α → List β)
    (k : Nat) (h : ∀ x ∈ l, (f x).length = k) :
    (l.flatMap f).length = l.length * k := by
  induction l with
  | nil => simp
  | cons x xs ih =>
    simp only [List.flatMap_cons, List.length_append, List.length_cons]
    rw [h x (List.mem_cons_self x xs),
      ih (fun y hy => h y (List.mem_cons_of_mem x hy))]
    ring

theorem length_load_actions (c p a : List String) :
    (load_actions c p a).length = c.length * p.length * a.length := by
  unfold load_actions
  rw [length_flatMap_eq_mul _ _ (p.length * a.length) ?_]
  · ring
  · intro x _
    rw [length_flatMap_eq_mul _ _ a.length (fun y _ => List.length_map _ _)]

theorem length_unload_actions (c p a : List String) :
    (unload_actions c p a).length = c.length * p.length * a.length := by
  unfold unload_actions
  rw [length_flatMap_eq_mul _ _ (p.length * a.length) ?_]
  · ring
  · intro x _
    rw [length_flatMap_eq_mul _ _ a.length (fun y _ => List.length_map _ _)]

theorem length_filter_ne (x : String) (l : List String) (hn : l.Nodup)
    (hx : x ∈ l) :
    (l.filter (fun t => decide (x ≠ t))).length = l.length - 1 := by
  induction l with
  | nil => cases hx
  | cons y ys ih =>
    rcases List.nodup_cons.mp hn with ⟨hy, hys⟩
    rcases List.mem_cons.mp hx with rfl | hmem
    · have hall : ys.filter (fun t => decide (x ≠ t)) = ys :=
        List.filter_eq_self.mpr
          (fun t ht => by
            simp only [decide_eq_true_eq]
            exact fun h => hy (h ▸ ht))
      rw [List.filter_cons, if_neg (by simp), hall, List.length_cons]
      omega
    · have hxy : x ≠ y := fun h => hy (h ▸ hmem)
      have hpos : 0 < ys.length :=
        List.length_pos.mpr (List.ne_nil_of_mem hmem)
      simp only [List.filter_cons, decide_eq_true_eq]
      rw [if_pos hxy]
      simp only [List.length_cons, ih hys hmem]
      omega

theorem length_fly_actions (planes airports : List String)
    (hA : airports.Nodup) :
    (fly_actions planes airports).length =
      planes.length * airports.length * (airports.length - 1) := by
  unfold fly_actions
  rw [length_flatMap_eq_mul _ _ ((airports.length - 1) * planes.length) ?_]
  · ring
  · intro fr hfr
    rw [length_flatMap_eq_mul _ _ planes.length
      (fun t _ => List.length_map _ _)]
    rw [length_filter_ne fr airports hA hfr]

theorem name_of_mem_load (c p a : List String) (x : Action)
    (h : x ∈ load_actions c p a) : x.name = "Load" := by
  simp only [load_actions, List.mem_flatMap, List.mem_map] at h
  obtain ⟨_, _, _, _, _, _, rfl⟩ := h
  rfl

theorem name_of_mem_unload (c p a : List String) (x : Action)
    (h : x ∈ unload_actions c p a) : x.name = "Unload" := by
  simp only [unload_actions, List.mem_flatMap, List.mem_map] at h
  obtain ⟨_, _, _, _, _, _, rfl⟩ := h
  rfl

theorem name_of_mem_fly (p a : List String) (x : Action)
    (h : x ∈ fly_actions p a) : x.name = "Fly" := by
  simp only [fly_actions, List.mem_flatMap, List.mem_map] at h
  obtain ⟨_, _, _, _, _, _, rfl⟩ := h
  rfl

/-- Claim C4: with duplicate-free domain identifier lists, the grounder
produces exactly |C|·|P|·|A| Load actions, |C|·|P|·|A| Unload actions and
|P|·|A|·(|A|−1) Fly actions. -/
theorem grounding_cardinality (p : AirCargoProblem) (_hC : p.cargos.Nodup)
    (_hP : p.planes.Nodup) (hA : p.airports.Nodup) :
    p.get_actions.countP (fun x => x.name == "Load") =
      p.cargos.length * p.planes.length * p.airports.length ∧
    p.get_actions.countP (fun x => x.name == "Unload") =
      p.cargos.length * p.planes.length * p.airports.length ∧
    p.get_actions.countP (fun x => x.name == "Fly") =
      p.planes.length * p.airports.length * (p.airports.length - 1) := by
  have hLoad : ∀ x ∈ load_actions p.cargos p.planes p.airports,
      x.name = "Load" := fun x hx => name_of_mem_load _ _ _ x hx
  have hUnload : ∀ x ∈ unload_actions p.cargos p.planes p.airports,
      x.name = "Unload" := fun x hx => name_of_mem_unload _ _ _ x hx
  have hFly : ∀ x ∈ fly_actions p.planes p.airports,
      x.name = "Fly" := fun x hx => name_of_mem_fly _ _ x hx
  unfold AirCargoProblem.get_actions
  repeat rw [List.countP_append]
  refine ⟨?_, ?_, ?_⟩
  · rw [List.countP_eq_length.mpr (fun x hx => by rw [hLoad x hx]; rfl),
      List.countP_eq_zero.mpr (fun x hx => by rw [hUnload x hx]; decide),
      List.countP_eq_zero.mpr (fun x hx => by rw [hFly x hx]; decide),
      length_load_actions]
    simp
  · rw [List.countP_eq_zero.mpr (fun x hx => by rw [hLoad x hx]; decide),
      List.countP_eq_length.mpr (fun x hx => by rw [hUnload x hx]; rfl),
      List.countP_eq_zero.mpr (fun x hx => by rw [hFly x hx]; decide),
      length_unload_actions]
    simp
  · rw [List.countP_eq_zero.mpr (fun x hx => by rw [hLoad x hx]; decide),
      List.countP_eq_zero.mpr (fun x hx => by rw [hUnload x hx]; decide),
      List.countP_eq_length.mpr (fun x hx => by rw [hFly x hx]; rfl),
      length_fly_actions _ _ hA]
    simp

/-- Instance of claim C4 on the `air_cargo_p1` domain: the Load count equals
|C|·|P|·|A|. -/
theorem grounding_cardinality_witness :
    air_cargo_p1.cargos.Nodup ∧ air_cargo_p1.planes.Nodup ∧
    air_cargo_p1.airports.Nodup ∧
    air_cargo_p1.get_actions.countP (fun x => x.name == "Load") =
      air_cargo_p1.cargos.length * air_cargo_p1.planes.length *
        air_cargo_p1.airports.length :=
  ⟨by decide, by decide, by decide,
    (grounding_cardinality air_cargo_p1 (by decide) (by decide)
      (by decide)).1⟩

/-- Claim C8 counterexample: `badProblem` carries the goal fluent
At(C1, LAX) whose airport is absent from the domain, yet its construction
completes normally (the grounder runs and yields the two expected actions)
and the goal test silently fails, even on the all-true encoded state. -/
theorem badProblem_constructs_silently :
    badProblem.goal_test badProblem.initial_state_TF = false ∧
    badProblem.goal_test [true, true, true] = false ∧
    badProblem.actions_list.length = 2 := by
  decide

/-- Claim C8 (amended): problem construction performs no validation; any
goal fluent absent from the state map is accepted and makes the goal test
return false on every encoded state. -/
theorem goal_fluent_outside_map_always_false (p : AirCargoProblem)
    (g : Fluent) (hg : g ∈ p.goal) (hmap : g ∉ p.state_map) :
    goalTestAlwaysFalse p := by
  intro s
  have hpos : g ∉ (decode_state s p.state_map).pos :=
    fun hmem => hmap (decode_pos_subset_state_map s p.state_map g hmem)
  simp only [AirCargoProblem.goal_test]
  rw [List.all_eq_false]
  exact ⟨g, hg, by simpa using hpos⟩

/-- Instance of claim C8 (amended) on `badProblem` and its out-of-domain
goal fluent. -/
theorem goal_fluent_outside_map_always_false_witness :
    Fluent.At "C1" "LAX" ∈ badProblem.goal ∧
    Fluent.At "C1" "LAX" ∉ badProblem.state_map ∧
    goalTestAlwaysFalse badProblem :=
  ⟨by decide, by decide,
    goal_fluent_outside_map_always_false badProblem (Fluent.At "C1" "LAX")
      (by decide) (by decide)⟩

/-- Claim C9: `result` performs no applicability check and has no error
path: even for an action that is not applicable in the state, it returns
the encoding (slot by slot over the state map) of the add/delete update of
the decoded state. -/
theorem result_no_applicability_check (p : AirCargoProblem) (s : List Bool)
    (a : Action) (_hnot : a ∉ p.actions s) :
    (p.result s a).length = p.state_map.length ∧
    ∀ i : Nat, (p.result s a)[i]? =
      (p.state_map[i]?).map (fun fl =>
        decide ((fl ∈ (decode_state s p.state_map).pos ∧
          fl ∉ a.effect_rem) ∨ fl ∈ a.effect_add)) := by
  constructor
  · simp [AirCargoProblem.result, encode_state]
  · intro i
    have hfun : (fun fl =>
        decide (fl ∈ (result_fs (decode_state s p.state_map) a).pos)) =
        (fun fl => decide ((fl ∈ (decode_state s p.state_map).pos ∧
          fl ∉ a.effect_rem) ∨ fl ∈ a.effect_add)) :=
      funext fun fl => decide_eq_decide.mpr (mem_result_fs_pos _ _ fl)
    simp only [AirCargoProblem.result, encode_state, List.getElem?_map]
    rw [hfun]

/-- Instance of claim C9: Fly(P1, JFK, SFO) is inapplicable in the initial
state of `air_cargo_p1`, yet `result` returns the update-rule encoding. -/
theorem result_no_applicability_check_witness :
    p1_fly_P1_back ∉ air_cargo_p1.actions air_cargo_p1.initial_state_TF ∧
    (air_cargo_p1.result air_cargo_p1.initial_state_TF
      p1_fly_P1_back).length = air_cargo_p1.state_map.length ∧
    (air_cargo_p1.result air_cargo_p1.initial_state_TF p1_fly_P1_back)[0]? =
      (air_cargo_p1.state_map[0]?).map (fun fl =>
        decide ((fl ∈ (decode_state air_cargo_p1.initial_state_TF
          air_cargo_p1.state_map).pos ∧
          fl ∉ p1_fly_P1_back.effect_rem) ∨
          fl ∈ p1_fly_P1_back.effect_add)) :=
  ⟨by decide,
    (result_no_applicability_check air_cargo_p1 _ _ (by decide)).1,
    (result_no_applicability_check air_cargo_p1 _ _ (by decide)).2 0⟩

/-- Claim C10: applicability and the goal test depend only on the positive
half of the decoded state: two encoded states whose decodings have the same
positive fluent set yield the same `actions` list and the same `goal_test`
value. -/
theorem actions_goal_depend_only_on_pos (p : AirCargoProblem)
    (s1 s2 : List Bool)
    (h : ∀ f : Fluent, f ∈ (decode_state s1 p.state_map).pos ↔
      f ∈ (decode_state s2 p.state_map).pos) :
    p.actions s1 = p.actions s2 ∧ p.goal_test s1 = p.goal_test s2 := by
  have hin : (fun c => decide (c ∈ (decode_state s1 p.state_map).pos)) =
      (fun c => decide (c ∈ (decode_state s2 p.state_map).pos)) :=
    funext fun c => decide_eq_decide.mpr (h c)
  have hout : (fun c => decide (c ∉ (decode_state s1 p.state_map).pos)) =
      (fun c => decide (c ∉ (decode_state s2 p.state_map).pos)) :=
    funext fun c => decide_eq_decide.mpr (not_congr (h c))
  constructor
  · simp only [AirCargoProblem.actions]
    rw [hin, hout]
  · simp only [AirCargoProblem.goal_test]
    rw [hin]

/-- Instance of claim C10: extending the encoded initial state of
`air_cargo_p1` with an extra slot beyond the state map leaves the decoded
positive set, hence `actions` and `goal_test`, unchanged. -/
theorem actions_goal_depend_only_on_pos_witness :
    air_cargo_p1.actions air_cargo_p1.initial_state_TF =
      air_cargo_p1.actions (air_cargo_p1.initial_state_TF ++ [true]) ∧
    air_cargo_p1.goal_test air_cargo_p1.initial_state_TF =
      air_cargo_p1.goal_test (air_cargo_p1.initial_state_TF ++ [true]) :=
  actions_goal_depend_only_on_pos air_cargo_p1 _ _ (by
    intro f
    have hdec : decode_state (air_cargo_p1.initial_state_TF ++ [true])
        air_cargo_p1.state_map =
        decode_state air_cargo_p1.initial_state_TF air_cargo_p1.state_map :=
      by decide
    rw [hdec])

theorem length_filter_lt_of_mem_not {α : Type} (l : List α) (p : α → Bool)
    (x : α) (hx : x ∈ l) (hpx : p x = false) :
    (l.filter p).length < l.length := by
  induction l with
  | nil => cases hx
  | cons y ys ih =>
    rcases List.mem_cons.mp hx with rfl | hmem
    · rw [List.filter_cons, if_neg (by simp [hpx])]
      have := List.length_filter_le p ys
      simp only [List.length_cons]
      omega
    · by_cases hy : p y = true
      · rw [List.filter_cons, if_pos hy]
        simpa using ih hmem
      · rw [List.filter_cons, if_neg (by simpa using hy)]
        have := ih hmem
        simp only [List.length_cons]
        omega

theorem lruStep_length_le (c : Nat) (f : Nat → Nat)
    (cache : List (Nat × Nat)) (k : Nat) (h : cache.length ≤ c) :
    (lruStep c f cache k).length ≤ c := by
  unfold lruStep
  cases hfind : cache.find? (fun e => e.1 == k) with
  | none =>
    simp only [List.length_take]
    omega
  | some e =>
    have he : e ∈ cache := List.mem_of_find?_eq_some hfind
    have hpe : (e.1 == k) = true := by simpa using List.find?_some hfind
    have hlt : (cache.filter (fun x => x.1 != k)).length < cache.length :=
      length_filter_lt_of_mem_not cache _ e he (by simp [bne, hpe])
    simp only [List.length_cons]
    omega

theorem lruRun_length_aux (c : Nat) (f : Nat → Nat) (ks : List Nat)
    (cache : List (Nat × Nat)) (h : cache.length ≤ c) :
    (ks.foldl (lruStep c f) cache).length ≤ c := by
  induction ks generalizing cache with
  | nil => simpa using h
  | cons k ks ih => exact ih _ (lruStep_length_le c f cache k h)

theorem lruRun_fresh (c : Nat) (f : Nat → Nat) (ks : List Nat)
    (cache : List (Nat × Nat)) (hnd : ks.Nodup)
    (hfresh : ∀ k ∈ ks, ∀ e ∈ cache, e.1 ≠ k)
    (hlen : cache.length + ks.length ≤ c) :
    ks.foldl (lruStep c f) cache =
      (ks.map (fun k => (k, f k))).reverse ++ cache := by
  induction ks generalizing cache with
  | nil => simp
  | cons k ks ih =>
    rcases List.nodup_cons.mp hnd with ⟨hk, hks⟩
    have hstep : lruStep c f cache k = (k, f k) :: cache := by
      unfold lruStep
      have hnone : cache.find? (fun e => e.1 == k) = none :=
        List.find?_eq_none.mpr (fun e he => by
          simpa using hfresh k (List.mem_cons_self k ks) e he)
      rw [hnone]
      apply List.take_of_length_le
      simp only [List.length_cons]
      simp only [List.length_cons] at hlen
      omega
    rw [List.foldl_cons, hstep,
      ih ((k, f k) :: cache) hks
        (by
          intro k2 hk2 e he
          rcases List.mem_cons.mp he with rfl | he2
          · intro heq
            have hkk : k = k2 := heq
            subst hkk
            exact hk hk2
          · exact hfresh k2 (List.mem_cons_of_mem _ hk2) e he2)
        (by
          simp only [List.length_cons]
          simp only [List.length_cons] at hlen
          omega)]
    simp [List.append_assoc]

theorem range_add_two (m : Nat) :
    List.range (m + 2) = 0 :: 1 :: (List.range m).map (fun k => k + 2) := by
  rw [List.range_succ_eq_map, List.range_succ_eq_map, List.map_cons,
    List.map_map]
  rfl

theorem lruRun_scenario (m : Nat) (f : Nat → Nat) :
    lruRun (m + 2) f (List.range (m + 2) ++ [0, m + 2]) =
      (m + 2, f (m + 2)) :: (0, f 0) ::
        ((List.range m).map (fun k => (k + 2, f (k + 2)))).reverse := by
  have hL : List.foldl (lruStep (m + 2) f) [] (List.range (m + 2)) =
      ((List.range (m + 2)).map (fun k => (k, f k))).reverse ++ [] :=
    lruRun_fresh (m + 2) f (List.range (m + 2)) [] (List.nodup_range _)
      (by intro k _ e he; cases he) (by simp)
  unfold lruRun
  rw [List.foldl_append, hL, List.append_nil, range_add_two, List.map_cons,
    List.map_cons, List.map_map]
  set RX := (((List.range m).map
    (fun k => ((fun j => (j, f j)) ∘ fun j => j + 2) k))).reverse with hRXdef
  have hRX : ∀ e ∈ RX, ∃ j, j < m ∧ e = (j + 2, f (j + 2)) := by
    intro e he
    rw [hRXdef, List.mem_reverse] at he
    simp only [List.mem_map, List.mem_range, Function.comp] at he
    obtain ⟨j, hj, rfl⟩ := he
    exact ⟨j, hj, rfl⟩
  rw [List.reverse_cons, List.reverse_cons]
  -- fold the two trailing keys explicitly
  simp only [List.foldl_cons, List.foldl_nil]
  have hstep0 : lruStep (m + 2) f ((RX ++ [(1, f 1)]) ++ [(0, f 0)]) 0 =
      (0, f 0) :: (RX ++ [(1, f 1)]) := by
    unfold lruStep
    have hfind : ((RX ++ [(1, f 1)]) ++ [(0, f 0)]).find?
        (fun e => e.1 == 0) = some (0, f 0) := by
      rw [List.find?_append, List.find?_append]
      have h1 : RX.find? (fun e => e.1 == 0) = none :=
        List.find?_eq_none.mpr (fun e he => by
          obtain ⟨j, _, rfl⟩ := hRX e he
          simp)
      rw [h1]
      simp
    rw [hfind]
    have hfil : ((RX ++ [(1, f 1)]) ++ [(0, f 0)]).filter
        (fun e => e.1 != 0) = RX ++ [(1, f 1)] := by
      rw [List.filter_append, List.filter_append]
      have h1 : RX.filter (fun e => e.1 != 0) = RX :=
        List.filter_eq_self.mpr (fun e he => by
          obtain ⟨j, _, rfl⟩ := hRX e he
          simp)
      rw [h1]
      simp
    rw [hfil]
  rw [hstep0]
  have hlenRX : RX.length = m := by
    rw [hRXdef]
    simp
  have hstep1 : lruStep (m + 2) f ((0, f 0) :: (RX ++ [(1, f 1)])) (m + 2) =
      (m + 2, f (m + 2)) :: (0, f 0) :: RX := by
    unfold lruStep
    have hfind : ((0, f 0) :: (RX ++ [(1, f 1)])).find?
        (fun e => e.1 == m + 2) = none := by
      apply List.find?_eq_none.mpr
      intro e he
      rcases List.mem_cons.mp he with rfl | he2
      · simp
      · rcases List.mem_append.mp he2 with he3 | he3
        · obtain ⟨j, hj, rfl⟩ := hRX e he3
          simp only [beq_iff_eq]
          omega
        · rcases List.mem_singleton.mp he3 with rfl
          simp only [beq_iff_eq]
          omega
    rw [hfind]
    have hshape : (m + 2, f (m + 2)) :: (0, f 0) :: (RX ++ [(1, f 1)]) =
        ((m + 2, f (m + 2)) :: (0, f 0) :: RX) ++ [(1, f 1)] := by
      simp
    rw [hshape]
    apply List.take_left'
    simp only [List.length_cons, hlenRX]
  rw [hstep1, hRXdef]
  rfl

/-- Claim C7 counterexample: evaluate 8192 distinct keys, re-read key 0,
then evaluate fresh key 8192.  The bound is exceeded exactly once, yet the
oldest-computed entry (key 0) survives in the cache while key 1 (computed
later than key 0) is the one evicted, so oldest-computed-first eviction is
violated. -/
theorem levelsum_cache_not_oldest_evicted :
    (0 : Nat) ∈ ((lruRun 8192 (fun k => k)
        (List.range 8192 ++ [0, 8192])).map Prod.fst) ∧
    (1 : Nat) ∉ ((lruRun 8192 (fun k => k)
        (List.range 8192 ++ [0, 8192])).map Prod.fst) := by
  rw [show (8192 : Nat) = 8190 + 2 from rfl,
    lruRun_scenario 8190 (fun k => k)]
  constructor
  · simp
  · intro h
    simp only [List.map_cons, List.mem_cons, List.map_reverse,
      List.mem_reverse, List.mem_map, List.mem_range] at h
    rcases h with h | h | ⟨e, ⟨j, hj, rfl⟩, hjeq⟩
    · omega
    · omega
    · simp only at hjeq
      omega

/-- Claim C7 (amended): the memoization cache of the level-sum heuristic
holds at most 8192 entries, and once that bound is exceeded the
least-recently-used entry (the last one in recency order, not necessarily
the oldest-computed one) is the one evicted. -/
theorem levelsum_cache_bound_and_lru_eviction (f : Nat → Nat)
    (ks : List Nat) (cache : List (Nat × Nat)) (k : Nat)
    (hfull : cache.length = 8192)
    (hmiss : cache.find? (fun e => e.1 == k) = none) :
    (lruRun 8192 f ks).length ≤ 8192 ∧
    lruStep 8192 f cache k = (k, f k) :: cache.dropLast := by
  constructor
  · exact lruRun_length_aux 8192 f ks [] (by simp)
  · unfold lruStep
    rw [hmiss, List.dropLast_eq_take, hfull]
    show ((k, f k) :: cache).take (8191 + 1) = (k, f k) :: cache.take 8191
    rw [List.take_succ_cons]

/-- Instance of claim C7 (amended): a short run respects the bound, and a
miss on the full cache holding keys 0..8191 evicts exactly the last entry
in recency order. -/
theorem levelsum_cache_bound_and_lru_eviction_witness :
    (lruRun 8192 (fun k => k) [5, 5, 7]).length ≤ 8192 ∧
    lruStep 8192 (fun k => k) ((List.range 8192).map (fun k => (k, k)))
        9000 =
      (9000, 9000) ::
        ((List.range 8192).map (fun k => (k, k))).dropLast :=
  levelsum_cache_bound_and_lru_eviction (fun k => k) [5, 5, 7]
    ((List.range 8192).map (fun k => (k, k))) 9000
    (by simp)
    (by
      apply List.find?_eq_none.mpr
      intro e he
      simp only [List.mem_map, List.mem_range] at he
      obtain ⟨j, hj, rfl⟩ := he
      simp only [beq_iff_eq]
      omega)

end AirCargo
